import Mathlib

/-!
Verification of the MatfiltFilterChain core
(`third_party/renderman-22/plugin/hdPrman/matfiltFilterChain.h`).

The header declares the shading-network data model (`MatfiltConnection`,
`MatfiltNode`, `MatfiltNetwork`) and the filter-chain class
(`MatfiltFilterChain` with `Exec`, `AppendFilter`, `_filters`).

Embedding conventions:
* `TfToken` and `SdfPath` are interned-string / path identifiers, consumed
  opaquely by this core; both are embedded as `String`.
* `VtValue` is an opaque tagged value container; embedded as a wrapper
  around `String` (only identity matters to this core).
* `std::map<K, V>` is embedded as an association list with unique keys
  (`StdMap K V`) together with the operations `lookupKV` (find),
  `insertKV` (insert-or-assign, as `operator[]` assignment) and `eraseKV`
  (erase); `std::map`'s key ordering is abstracted away, only key
  uniqueness and the key/value association are modelled.
* A filter function (`FilterFnc`) mutates the network through a reference
  and may append error strings through the optional sink pointer; it is
  embedded as a pure function from its read-only inputs and the incoming
  network to the outgoing network paired with the list of error messages
  it appends.  A raw `FilterFnc` function pointer (which may be null) is
  embedded as `Option FilterFnc`, `none` standing for the null pointer.
* invoking a null function pointer is undefined behaviour; the execution
  semantics therefore returns `Option`, with `none` as the undefined
  result.
-/

namespace Matfilt

/-- Interned-string identifier (`TfToken`), consumed opaquely. -/
abbrev TfToken := String

/-- Hierarchical path identifier (`SdfPath`), consumed opaquely. -/
abbrev SdfPath := String

/-- Opaque tagged value container (`VtValue`); only identity matters here. -/
structure VtValue where
  val : String
deriving DecidableEq

/-- Embedding of `std::map<K, V>`: an association list whose operations keep
keys unique.  Iteration order of `std::map` is abstracted away. -/
abbrev StdMap (K V : Type) := List (K × V)

/-- Embedding of `std::map::find`: the value bound to `k`, if any. -/
def lookupKV {K V : Type} [DecidableEq K] : StdMap K V → K → Option V
  | [], _ => none
  | (k', v') :: rest, k => if k = k' then some v' else lookupKV rest k

/-- Embedding of `std::map` insert-or-assign (`m[k] = v`): replaces the value
at an existing key in place, otherwise adds a fresh entry. -/
def insertKV {K V : Type} [DecidableEq K] : StdMap K V → K → V → StdMap K V
  | [], k, v => [(k, v)]
  | (k', v') :: rest, k, v =>
      if k = k' then (k, v) :: rest
      else (k', v') :: insertKV rest k v

/-- Embedding of `std::map::erase(k)`: removes the entry with key `k`. -/
def eraseKV {K V : Type} [DecidableEq K] : StdMap K V → K → StdMap K V
  | [], _ => []
  | (k', v') :: rest, k => if k = k' then rest else (k', v') :: eraseKV rest k

/-- The keys of a map, in storage order. -/
def keysKV {K V : Type} (m : StdMap K V) : List K := m.map Prod.fst

/-- Key uniqueness: every key occurs at most once, as `std::map` guarantees
structurally. -/
def nodupKeys {K V : Type} (m : StdMap K V) : Prop := (keysKV m).Nodup

/-- `struct MatfiltConnection`: a single connection to an upstream node and
output port. -/
structure MatfiltConnection where
  upstreamNode : SdfPath
  upstreamOutputName : TfToken
deriving DecidableEq

/-- `struct MatfiltNode`: a (shader) type identifier, parameter values, and
connections to upstream nodes; one input may bind an ordered sequence of
connections (connected array elements). -/
structure MatfiltNode where
  nodeTypeId : TfToken
  parameters : StdMap TfToken VtValue
  inputConnections : StdMap TfToken (List MatfiltConnection)
deriving DecidableEq

/-- `struct MatfiltNetwork`: container of nodes and top-level terminal
connections. -/
structure MatfiltNetwork where
  nodes : StdMap SdfPath MatfiltNode
  terminals : StdMap TfToken MatfiltConnection
deriving DecidableEq

/-- The empty network: no nodes, no terminals. -/
def emptyNetwork : MatfiltNetwork := ⟨[], []⟩

/-- Well-formedness a `MatfiltNetwork` enjoys by construction in C++ because
`nodes` and `terminals` are `std::map`s: both key sets are duplicate-free. -/
def NetworkWF (network : MatfiltNetwork) : Prop :=
  nodupKeys network.nodes ∧ nodupKeys network.terminals

/-- Network mutation: insert (or overwrite) the node stored under `path`. -/
def insertNode (network : MatfiltNetwork) (path : SdfPath)
    (node : MatfiltNode) : MatfiltNetwork :=
  { network with nodes := insertKV network.nodes path node }

/-- Network mutation: erase the node stored under `path`. -/
def eraseNode (network : MatfiltNetwork) (path : SdfPath) : MatfiltNetwork :=
  { network with nodes := eraseKV network.nodes path }

/-- Network mutation: bind terminal `name` to `conn`. -/
def setTerminal (network : MatfiltNetwork) (name : TfToken)
    (conn : MatfiltConnection) : MatfiltNetwork :=
  { network with terminals := insertKV network.terminals name conn }

/-- Network mutation: erase the terminal named `name`. -/
def eraseTerminal (network : MatfiltNetwork) (name : TfToken) : MatfiltNetwork :=
  { network with terminals := eraseKV network.terminals name }

/-- `NdrTokenVec`: an ordered list of shader type identifiers. -/
abbrev NdrTokenVec := List TfToken

/-- `MatfiltFilterChain::FilterFnc` (the pointed-to function): manipulates a
shading network for a given context.  Embedded as a pure function from the
identifier, the incoming network and the two read-only context arguments to
the outgoing network paired with the error messages the function appends to
`outputErrorMessages` (empty when it appends nothing; discarded by the
caller when the sink pointer is null). -/
def FilterFnc : Type :=
  SdfPath → MatfiltNetwork → StdMap TfToken VtValue → NdrTokenVec →
    MatfiltNetwork × List String

/-- `class MatfiltFilterChain`: stores a sequence of filter-function
pointers (`std::vector<FilterFnc> _filters`); each pointer may be null
(`none`). -/
structure MatfiltFilterChain where
  _filters : List (Option FilterFnc)

/-- Modelled from the spec: the body of `MatfiltFilterChain::AppendFilter`
is not part of the provided sources (only its declaration is); per the spec
it "appends one transformation pass to the end of the sequence", with no
validation and no error condition. -/
def MatfiltFilterChain.AppendFilter (c : MatfiltFilterChain)
    (fnc : Option FilterFnc) : MatfiltFilterChain :=
  ⟨c._filters ++ [fnc]⟩

/-- The mutable state threaded through one `Exec` call: the chain's stored
sequence (readable but never written by the loop), the network reference,
the two read-only context arguments, and the optional error sink
(`none` models a null `outputErrorMessages` pointer). -/
structure ExecState where
  chainFilters : List (Option FilterFnc)
  network : MatfiltNetwork
  contextValues : StdMap TfToken VtValue
  shaderTypePriority : NdrTokenVec
  outputErrorMessages : Option (List String)

/-- Modelled from the spec: the body of `MatfiltFilterChain::Exec` is not
part of the provided sources (only its declaration is); per the spec it
"runs every appended pass, in append order, against `network`", mutating the
network in place, appending each pass's error messages to the sink when one
is supplied and discarding them otherwise, and never stopping early.
`ExecLoop` is the sequential loop over the remaining filters; invoking a
null filter pointer is undefined behaviour, returned as `none`. -/
def ExecLoop : List (Option FilterFnc) → SdfPath → ExecState →
    Option ExecState
  | [], _, s => some s
  | none :: _, _, _ => none
  | some f :: rest, networkId, s =>
      let r := f networkId s.network s.contextValues s.shaderTypePriority
      ExecLoop rest networkId
        { s with
            network := r.1,
            outputErrorMessages :=
              s.outputErrorMessages.map (fun l => l ++ r.2) }

/-- Modelled from the spec: `MatfiltFilterChain::Exec` executes the sequence
of filtering functions appended to this chain, in order, on `network`. -/
def MatfiltFilterChain.Exec (c : MatfiltFilterChain) (networkId : SdfPath)
    (network : MatfiltNetwork) (contextValues : StdMap TfToken VtValue)
    (shaderTypePriority : NdrTokenVec)
    (outputErrorMessages : Option (List String)) : Option ExecState :=
  ExecLoop c._filters networkId
    ⟨c._filters, network, contextValues, shaderTypePriority,
      outputErrorMessages⟩

/-- Reference semantics of running a list of non-null filters in sequence:
the final network together with the concatenation, in execution order, of
the error messages the filters append. -/
def runFilters : List FilterFnc → SdfPath → MatfiltNetwork →
    StdMap TfToken VtValue → NdrTokenVec → MatfiltNetwork × List String
  | [], _, network, _, _ => (network, [])
  | f :: rest, networkId, network, ctx, pri =>
      let r := f networkId network ctx pri
      let r2 := runFilters rest networkId r.1 ctx pri
      (r2.1, r.2 ++ r2.2)

/-- The network state observed by pass `i` (equivalently, left behind by the
first `i` passes) of the family `p`, starting from `network`. -/
def netAfter (p : Nat → FilterFnc) (networkId : SdfPath)
    (ctx : StdMap TfToken VtValue) (pri : NdrTokenVec)
    (network : MatfiltNetwork) : Nat → MatfiltNetwork
  | 0 => network
  | i + 1 =>
      (p i networkId (netAfter p networkId ctx pri network i) ctx pri).1

/-- A pass that inserts `node` under `path` and appends no error message. -/
def insertNodePass (path : SdfPath) (node : MatfiltNode) : FilterFnc :=
  fun _ network _ _ => (insertNode network path node, [])

/-- A pass that leaves the network untouched and appends nothing. -/
def idPass : FilterFnc := fun _ network _ _ => (network, [])

/-- A pass that leaves the network untouched and appends one error. -/
def errPass (msg : String) : FilterFnc :=
  fun _ network _ _ => (network, [msg])

/-- A concrete connection, used to instantiate theorems. -/
def sampleConnection : MatfiltConnection := ⟨"/mtl/Preview", "out"⟩

/-- A concrete node with one parameter and a single-element input-connection
sequence, used to instantiate theorems. -/
def sampleNode : MatfiltNode :=
  ⟨"PxrSurface", [("diffuseColor", ⟨"0.18"⟩)], [("in", [sampleConnection])]⟩

/-- A concrete network with one node and one terminal, used to instantiate
theorems. -/
def sampleNetwork : MatfiltNetwork :=
  ⟨[("/mtl/Preview", sampleNode)], [("surface", sampleConnection)]⟩

/-! ### Helper lemmas -/

/-- Running a concatenation of filter lists runs the first list, then the
second on the network it left, concatenating the error output. -/
theorem runFilters_append (fs gs : List FilterFnc) (nid : SdfPath)
    (net : MatfiltNetwork) (ctx : StdMap TfToken VtValue)
    (pri : NdrTokenVec) :
    runFilters (fs ++ gs) nid net ctx pri =
      ((runFilters gs nid (runFilters fs nid net ctx pri).1 ctx pri).1,
       (runFilters fs nid net ctx pri).2 ++
         (runFilters gs nid (runFilters fs nid net ctx pri).1 ctx pri).2) := by
  induction fs generalizing net with
  | nil => simp [runFilters]
  | cons f fs ih => simp [runFilters, ih, List.append_assoc]

/-- The loop over a list of non-null filter pointers returns the state with
the network replaced by the sequential result and, when a sink is present,
with the filters' error output appended to it. -/
theorem ExecLoop_map_some (fs : List FilterFnc) (nid : SdfPath)
    (s : ExecState) :
    ExecLoop (fs.map some) nid s =
      some { s with
        network :=
          (runFilters fs nid s.network s.contextValues s.shaderTypePriority).1,
        outputErrorMessages := s.outputErrorMessages.map
          (fun l => l ++
            (runFilters fs nid s.network s.contextValues
              s.shaderTypePriority).2) } := by
  induction fs generalizing s with
  | nil => simp [ExecLoop, runFilters]
  | cons f fs ih =>
      obtain ⟨cf, nw, cv, sp, oe⟩ := s
      simp only [List.map_cons, ExecLoop, runFilters, ih, Option.map_map]
      cases oe <;> simp [Function.comp, List.append_assoc]

/-- The loop never writes the chain's stored sequence, the context values or
the shader type priority. -/
theorem ExecLoop_frame (l : List (Option FilterFnc)) (nid : SdfPath) :
    ∀ s s', ExecLoop l nid s = some s' →
      s'.chainFilters = s.chainFilters ∧
      s'.contextValues = s.contextValues ∧
      s'.shaderTypePriority = s.shaderTypePriority := by
  induction l with
  | nil =>
      intro s s' h
      simp only [ExecLoop, Option.some.injEq] at h
      subst h; exact ⟨rfl, rfl, rfl⟩
  | cons f rest ih =>
      intro s s' h
      cases f with
      | none => simp [ExecLoop] at h
      | some g =>
          simp only [ExecLoop] at h
          have h' := ih _ _ h
          exact h'

/-- The loop reaches a null filter pointer: undefined behaviour (`none`). -/
theorem ExecLoop_null (fs1 : List FilterFnc)
    (rest : List (Option FilterFnc)) (nid : SdfPath) :
    ∀ s, ExecLoop (fs1.map some ++ none :: rest) nid s = none := by
  induction fs1 with
  | nil =>
      intro s
      simp [ExecLoop]
  | cons f fs ih =>
      intro s
      simp only [List.map_cons, List.cons_append, ExecLoop]
      exact ih _

/-- Looking up a key right after inserting it finds the inserted value. -/
theorem lookupKV_insertKV_self {K V : Type} [DecidableEq K]
    (m : StdMap K V) (k : K) (v : V) :
    lookupKV (insertKV m k v) k = some v := by
  induction m with
  | nil => simp [insertKV, lookupKV]
  | cons e rest ih =>
      obtain ⟨k', v'⟩ := e
      by_cases h : k = k' <;> simp [insertKV, lookupKV, h, ih]

/-- The keys after an insert-or-assign: unchanged when the key was present,
extended by the new key otherwise. -/
theorem keysKV_insertKV {K V : Type} [DecidableEq K]
    (m : StdMap K V) (k : K) (v : V) :
    keysKV (insertKV m k v) =
      if k ∈ keysKV m then keysKV m else keysKV m ++ [k] := by
  induction m with
  | nil => simp [insertKV, keysKV]
  | cons e rest ih =>
      obtain ⟨k', v'⟩ := e
      by_cases h : k = k'
      · simp [insertKV, keysKV, h]
      · have hins : insertKV ((k', v') :: rest) k v =
            (k', v') :: insertKV rest k v := by
          simp [insertKV, h]
        simp only [hins, keysKV, List.map_cons, List.mem_cons] at *
        by_cases h2 : k ∈ List.map Prod.fst rest
        · simp [h, h2, ih]
        · simp [h, h2, ih]

/-- Insert-or-assign preserves key uniqueness. -/
theorem nodupKeys_insertKV {K V : Type} [DecidableEq K]
    (m : StdMap K V) (k : K) (v : V) (h : nodupKeys m) :
    nodupKeys (insertKV m k v) := by
  unfold nodupKeys at *
  rw [keysKV_insertKV]
  by_cases hk : k ∈ keysKV m
  · simpa [hk] using h
  · simp only [hk, if_false]
    simp [List.nodup_append, h, hk]

/-- Erasing a key yields a sublist of the original entry list. -/
theorem eraseKV_sublist {K V : Type} [DecidableEq K]
    (m : StdMap K V) (k : K) :
    (eraseKV m k).Sublist m := by
  induction m with
  | nil => simp [eraseKV]
  | cons e rest ih =>
      obtain ⟨k', v'⟩ := e
      by_cases h : k = k'
      · simp only [eraseKV, if_pos h]
        exact List.sublist_cons_self (k', v') rest
      · simp only [eraseKV, if_neg h]
        exact List.Sublist.cons₂ (k', v') ih

/-- Erasing a key preserves key uniqueness. -/
theorem nodupKeys_eraseKV {K V : Type} [DecidableEq K]
    (m : StdMap K V) (k : K) (h : nodupKeys m) :
    nodupKeys (eraseKV m k) :=
  List.Nodup.sublist (List.Sublist.map Prod.fst (eraseKV_sublist m k)) h

/-- The loop over a concatenation factors through the intermediate state. -/
theorem ExecLoop_append (l1 l2 : List (Option FilterFnc)) (nid : SdfPath) :
    ∀ s, ExecLoop (l1 ++ l2) nid s =
      (ExecLoop l1 nid s).bind (ExecLoop l2 nid) := by
  induction l1 with
  | nil => intro s; simp [ExecLoop]
  | cons f rest ih =>
      intro s
      cases f with
      | none => simp [ExecLoop]
      | some g =>
          simp only [List.cons_append, ExecLoop]
          exact ih _

/-- The loop returns a defined result whenever no stored pointer is null. -/
theorem ExecLoop_isSome (l : List (Option FilterFnc)) (nid : SdfPath)
    (h : ∀ f ∈ l, Option.isSome f) : ∀ s, (ExecLoop l nid s).isSome := by
  induction l with
  | nil => intro s; simp [ExecLoop]
  | cons f rest ih =>
      intro s
      cases f with
      | none => simp at h
      | some g =>
          simp only [ExecLoop]
          exact ih (fun f hf => h f (List.mem_cons_of_mem _ hf)) _

/-- Closed form of running the passes `p 0, …, p (n-1)` in order: the final
network is the `n`-fold sequential composition and the error output is the
in-order concatenation of each pass's messages, each pass contributing
exactly once, evaluated on its predecessor's network. -/
theorem runFilters_range (p : Nat → FilterFnc) (nid : SdfPath)
    (net : MatfiltNetwork) (ctx : StdMap TfToken VtValue)
    (pri : NdrTokenVec) :
    ∀ n, runFilters ((List.range n).map p) nid net ctx pri =
      (netAfter p nid ctx pri net n,
       ((List.range n).map
          (fun i => (p i nid (netAfter p nid ctx pri net i) ctx pri).2)).flatten) := by
  intro n
  induction n with
  | zero => simp [runFilters, netAfter]
  | succ n ih =>
      rw [List.range_succ, List.map_append, runFilters_append, ih]
      simp [runFilters, netAfter, List.map_append, List.flatten_append]

/-- In a map with unique keys, each key is associated to at most one value. -/
theorem nodupKeys_unique {K V : Type} (m : StdMap K V) (h : nodupKeys m)
    (k : K) (v1 v2 : V) (h1 : (k, v1) ∈ m) (h2 : (k, v2) ∈ m) : v1 = v2 := by
  induction m with
  | nil => cases h1
  | cons e rest ih =>
      obtain ⟨k', v'⟩ := e
      simp only [nodupKeys, keysKV, List.map_cons, List.nodup_cons] at h
      cases h1 with
      | head =>
          cases h2 with
          | head => rfl
          | tail _ h2' =>
              exact absurd (List.mem_map_of_mem Prod.fst h2') h.1
      | tail _ h1' =>
          cases h2 with
          | head =>
              exact absurd (List.mem_map_of_mem Prod.fst h1') h.1
          | tail _ h2' => exact ih h.2 h1' h2'

/-! ### Claim theorems -/

/-- C1: For every chain with `n` appended passes and every input network,
`Exec` invokes each appended pass exactly once, in append order, strictly
sequentially, with no pass skipped and no pass retried, regardless of any
pass's side effects on the network or the error sink: the run of the passes
`p 0, …, p (n-1)` (each fully arbitrary) produces exactly the `n`-fold
sequential composition of their network actions, each pass evaluated once on
the network left by its predecessor (`netAfter … i`), and the error output
is the in-order concatenation of the single contribution of each pass. -/
theorem exec_invokes_each_pass_once_in_append_order
    (p : Nat → FilterFnc) (n : Nat) (nid : SdfPath) (net : MatfiltNetwork)
    (ctx : StdMap TfToken VtValue) (pri : NdrTokenVec) (l : List String) :
    runFilters ((List.range n).map p) nid net ctx pri =
      (netAfter p nid ctx pri net n,
       ((List.range n).map
          (fun i => (p i nid (netAfter p nid ctx pri net i) ctx pri).2)).flatten)
    ∧ MatfiltFilterChain.Exec ⟨((List.range n).map p).map some⟩ nid net ctx
        pri (some l) =
      some ⟨((List.range n).map p).map some,
        netAfter p nid ctx pri net n, ctx, pri,
        some (l ++ ((List.range n).map
          (fun i => (p i nid (netAfter p nid ctx pri net i) ctx pri).2)).flatten)⟩ := by
  refine ⟨runFilters_range p nid net ctx pri n, ?_⟩
  show ExecLoop (((List.range n).map p).map some) nid _ = _
  rw [ExecLoop_map_some, runFilters_range p nid net ctx pri n]
  rfl

/-- C2: If pass `f` (at any position, with `fs1` before it and `fs2` after
it) appends one or more error messages, every later pass is still executed:
the run decomposes as `fs1`, then `f`, then all of `fs2` on the network `f`
left, with all error output concatenated — `Exec` never stops early on
error, and the passes executed are independent of the error sink's
contents. -/
theorem exec_does_not_stop_on_error
    (fs1 fs2 : List FilterFnc) (f : FilterFnc) (nid : SdfPath)
    (net : MatfiltNetwork) (ctx : StdMap TfToken VtValue) (pri : NdrTokenVec)
    (_h : (f nid (runFilters fs1 nid net ctx pri).1 ctx pri).2 ≠ []) :
    runFilters (fs1 ++ f :: fs2) nid net ctx pri =
      ((runFilters fs2 nid
          (f nid (runFilters fs1 nid net ctx pri).1 ctx pri).1 ctx pri).1,
       (runFilters fs1 nid net ctx pri).2 ++
         ((f nid (runFilters fs1 nid net ctx pri).1 ctx pri).2 ++
          (runFilters fs2 nid
            (f nid (runFilters fs1 nid net ctx pri).1 ctx pri).1 ctx
            pri).2)) := by
  rw [runFilters_append]
  simp [runFilters]

/-- Witness for C2 at a concrete input: a first pass that appends the error
`"e"`, followed by a second pass; the second pass still runs and the run
returns both their effects. -/
theorem exec_does_not_stop_on_error_witness :
    runFilters ([] ++ errPass "e" :: [idPass]) "n" emptyNetwork [] [] =
      (emptyNetwork, ["e"]) := by
  have h := exec_does_not_stop_on_error [] [idPass] (errPass "e") "n"
    emptyNetwork [] [] (by simp [errPass, runFilters])
  rw [h]
  rfl

/-- C3: For every network, running `Exec` with a chain that has zero
appended passes returns the network exactly equal to the original (hence
with the same node set, parameter set, input-connection order and terminal
set) and appends no error messages, whether or not a sink is supplied. -/
theorem exec_empty_chain_identity (nid : SdfPath) (net : MatfiltNetwork)
    (ctx : StdMap TfToken VtValue) (pri : NdrTokenVec) (l : List String) :
    MatfiltFilterChain.Exec ⟨[]⟩ nid net ctx pri (some l) =
      some ⟨[], net, ctx, pri, some l⟩
    ∧ MatfiltFilterChain.Exec ⟨[]⟩ nid net ctx pri none =
      some ⟨[], net, ctx, pri, none⟩ :=
  ⟨rfl, rfl⟩

/-- C4: Mutations of the network are cumulative across passes, not
snapshotted per pass: if a pass inserts a node under a fresh path, that node
is present in `network.nodes` when the run returns, and a later pass `g`
observes the network state left by all earlier passes, including the
insertion. -/
theorem exec_mutations_cumulative
    (fs : List FilterFnc) (g : FilterFnc) (path : SdfPath)
    (node : MatfiltNode) (nid : SdfPath) (net : MatfiltNetwork)
    (ctx : StdMap TfToken VtValue) (pri : NdrTokenVec)
    (_hfresh : lookupKV (runFilters fs nid net ctx pri).1.nodes path =
      none) :
    lookupKV
        (runFilters (fs ++ [insertNodePass path node]) nid net ctx
          pri).1.nodes path = some node
    ∧ runFilters (fs ++ insertNodePass path node :: [g]) nid net ctx pri =
        ((g nid (insertNode (runFilters fs nid net ctx pri).1 path node) ctx
            pri).1,
         (runFilters fs nid net ctx pri).2 ++
           (g nid (insertNode (runFilters fs nid net ctx pri).1 path node)
             ctx pri).2) := by
  constructor
  · rw [runFilters_append]
    simp [runFilters, insertNodePass, insertNode, lookupKV_insertKV_self]
  · rw [runFilters_append]
    simp [runFilters, insertNodePass]

/-- Witness for C4 at a concrete input: inserting `sampleNode` under the
fresh path `"/mtl/x"` into the empty network leaves it visible in
`network.nodes` after the run. -/
theorem exec_mutations_cumulative_witness :
    lookupKV
        (runFilters ([] ++ [insertNodePass "/mtl/x" sampleNode]) "/mtl"
          emptyNetwork [] []).1.nodes "/mtl/x" = some sampleNode :=
  (exec_mutations_cumulative [] idPass "/mtl/x" sampleNode "/mtl"
    emptyNetwork [] [] rfl).1

/-- C5: If `outputErrorMessages` is null (`none`), `Exec` still executes
every appended pass to completion without faulting (the result is defined
and the network is the full sequential fold); the error messages are
discarded (the sink stays `none`) and the resulting network is the same as
with a sink present. -/
theorem exec_null_sink_discards_errors
    (fs : List FilterFnc) (nid : SdfPath) (net : MatfiltNetwork)
    (ctx : StdMap TfToken VtValue) (pri : NdrTokenVec) (l : List String) :
    MatfiltFilterChain.Exec ⟨fs.map some⟩ nid net ctx pri none =
      some ⟨fs.map some, (runFilters fs nid net ctx pri).1, ctx, pri, none⟩
    ∧ MatfiltFilterChain.Exec ⟨fs.map some⟩ nid net ctx pri (some l) =
      some ⟨fs.map some, (runFilters fs nid net ctx pri).1, ctx, pri,
        some (l ++ (runFilters fs nid net ctx pri).2)⟩ := by
  constructor <;> simp [MatfiltFilterChain.Exec, ExecLoop_map_some]

/-- C6: `AppendFilter` always succeeds (it is a total function with no error
condition), extends the stored sequence by exactly one element at the end,
preserves the relative order of all previously appended passes, performs no
reordering or deduplication (a pass appended twice occurs twice), and a
twice-appended pass is executed twice (sequentially composed with itself). -/
theorem appendFilter_appends_exactly_one
    (c : MatfiltFilterChain) (f : Option FilterFnc) :
    (c.AppendFilter f)._filters = c._filters ++ [f]
    ∧ (c.AppendFilter f)._filters.length = c._filters.length + 1
    ∧ ((c.AppendFilter f).AppendFilter f)._filters = c._filters ++ [f, f]
    ∧ ∀ (g : FilterFnc) (nid : SdfPath) (net : MatfiltNetwork)
        (ctx : StdMap TfToken VtValue) (pri : NdrTokenVec),
        runFilters [g, g] nid net ctx pri =
          ((g nid (g nid net ctx pri).1 ctx pri).1,
           (g nid net ctx pri).2 ++
             (g nid (g nid net ctx pri).1 ctx pri).2) := by
  refine ⟨rfl, by simp [MatfiltFilterChain.AppendFilter],
    by simp [MatfiltFilterChain.AppendFilter], ?_⟩
  intro g nid net ctx pri
  simp [runFilters]

/-- C7: `Exec` leaves the chain's own stored pass sequence unchanged (the
chain holds no per-invocation state and is reusable across invocations) and
leaves `contextValues` and `shaderTypePriority` unchanged for the whole
duration of the call: whenever a run completes, the final state carries the
chain's filters, the context values and the shader type priority exactly as
they were supplied. -/
theorem exec_preserves_chain_and_context
    (c : MatfiltFilterChain) (nid : SdfPath) (net : MatfiltNetwork)
    (ctx : StdMap TfToken VtValue) (pri : NdrTokenVec)
    (sink : Option (List String)) (s' : ExecState)
    (h : c.Exec nid net ctx pri sink = some s') :
    s'.chainFilters = c._filters
    ∧ s'.contextValues = ctx
    ∧ s'.shaderTypePriority = pri := by
  have h' := ExecLoop_frame c._filters nid _ _ h
  exact h'

/-- Witness for C7 at a concrete input: a one-pass chain run on the empty
network completes, and the completed state carries the chain's filter list,
context values and shader type priority unchanged. -/
theorem exec_preserves_chain_and_context_witness :
    (MatfiltFilterChain.mk [some (errPass "e")]).Exec "n" emptyNetwork []
        [] (some []) =
      some ⟨[some (errPass "e")], emptyNetwork, [], [], some ["e"]⟩
    ∧ (⟨[some (errPass "e")], emptyNetwork, [], [], some ["e"]⟩ :
        ExecState).chainFilters =
      (MatfiltFilterChain.mk [some (errPass "e")])._filters :=
  ⟨rfl,
   (exec_preserves_chain_and_context (MatfiltFilterChain.mk
      [some (errPass "e")]) "n" emptyNetwork [] [] (some []) _ rfl).1⟩

/-- C8: The error sink only grows during one run of `Exec`: with a sink
present, the run completes with the sink equal to the prior entries followed
by the newly appended messages (prior entries kept, in their original order,
as a prefix); moreover the run factors through every intermediate loop
state, and at each such mid-run point the sink is likewise the prior entries
extended on the right — nothing is cleared, removed or modified mid-run. -/
theorem exec_error_sink_only_grows
    (fs : List FilterFnc) (nid : SdfPath) (net : MatfiltNetwork)
    (ctx : StdMap TfToken VtValue) (pri : NdrTokenVec) (l : List String) :
    (∃ newErrs, MatfiltFilterChain.Exec ⟨fs.map some⟩ nid net ctx pri
        (some l) =
      some ⟨fs.map some, (runFilters fs nid net ctx pri).1, ctx, pri,
        some (l ++ newErrs)⟩)
    ∧ ∀ fs1 fs2 : List FilterFnc, fs = fs1 ++ fs2 →
        (MatfiltFilterChain.Exec ⟨fs.map some⟩ nid net ctx pri (some l) =
          (ExecLoop (fs1.map some) nid
            ⟨fs.map some, net, ctx, pri, some l⟩).bind
            (ExecLoop (fs2.map some) nid))
        ∧ ∃ midErrs s', ExecLoop (fs1.map some) nid
              ⟨fs.map some, net, ctx, pri, some l⟩ = some s'
            ∧ s'.outputErrorMessages = some (l ++ midErrs) := by
  constructor
  · exact ⟨(runFilters fs nid net ctx pri).2,
      by simp [MatfiltFilterChain.Exec, ExecLoop_map_some]⟩
  · intro fs1 fs2 hsplit
    constructor
    · simp only [MatfiltFilterChain.Exec, hsplit, List.map_append]
      exact ExecLoop_append (fs1.map some) (fs2.map some) nid _
    · exact ⟨(runFilters fs1 nid net ctx pri).2, _,
        ExecLoop_map_some fs1 nid _, rfl⟩

/-- Witness for C8 at a concrete input: one error-appending pass run with a
non-empty prior sink keeps the prior entry as a prefix, both at the end and
at the mid-run split. -/
theorem exec_error_sink_only_grows_witness :
    (∃ newErrs, MatfiltFilterChain.Exec ⟨[errPass "e"].map some⟩ "n"
        emptyNetwork [] [] (some ["old"]) =
      some ⟨[errPass "e"].map some,
        (runFilters [errPass "e"] "n" emptyNetwork [] []).1, [], [],
        some (["old"] ++ newErrs)⟩)
    ∧ ∃ midErrs s', ExecLoop ([errPass "e"].map some) "n"
          ⟨[errPass "e"].map some, emptyNetwork, [], [], some ["old"]⟩ =
          some s'
        ∧ s'.outputErrorMessages = some (["old"] ++ midErrs) :=
  ⟨(exec_error_sink_only_grows [errPass "e"] "n" emptyNetwork [] []
      ["old"]).1,
   ((exec_error_sink_only_grows [errPass "e"] "n" emptyNetwork [] []
      ["old"]).2 [errPass "e"] [] (by simp)).2⟩

/-- C9: In every network, each path identifier occurs at most once as a key
of the nodes mapping and each terminal name is bound to exactly one
connection; this key uniqueness is preserved by every mutation of the
network through the map operations (node insert/erase, terminal
set/erase), and the empty network is a valid (well-formed) state. -/
theorem network_key_uniqueness_invariant :
    NetworkWF emptyNetwork
    ∧ (∀ (net : MatfiltNetwork) (path : SdfPath) (node : MatfiltNode),
        NetworkWF net → NetworkWF (insertNode net path node))
    ∧ (∀ (net : MatfiltNetwork) (path : SdfPath),
        NetworkWF net → NetworkWF (eraseNode net path))
    ∧ (∀ (net : MatfiltNetwork) (name : TfToken)
        (conn : MatfiltConnection),
        NetworkWF net → NetworkWF (setTerminal net name conn))
    ∧ (∀ (net : MatfiltNetwork) (name : TfToken),
        NetworkWF net → NetworkWF (eraseTerminal net name))
    ∧ (∀ net : MatfiltNetwork, NetworkWF net →
        ∀ (path : SdfPath) (n1 n2 : MatfiltNode),
          (path, n1) ∈ net.nodes → (path, n2) ∈ net.nodes → n1 = n2)
    ∧ (∀ net : MatfiltNetwork, NetworkWF net →
        ∀ (name : TfToken) (c1 c2 : MatfiltConnection),
          (name, c1) ∈ net.terminals → (name, c2) ∈ net.terminals →
            c1 = c2) := by
  refine ⟨⟨List.nodup_nil, List.nodup_nil⟩, ?_, ?_, ?_, ?_, ?_, ?_⟩
  · exact fun net path node h =>
      ⟨nodupKeys_insertKV net.nodes path node h.1, h.2⟩
  · exact fun net path h => ⟨nodupKeys_eraseKV net.nodes path h.1, h.2⟩
  · exact fun net name conn h =>
      ⟨h.1, nodupKeys_insertKV net.terminals name conn h.2⟩
  · exact fun net name h => ⟨h.1, nodupKeys_eraseKV net.terminals name h.2⟩
  · exact fun net h path n1 n2 h1 h2 =>
      nodupKeys_unique net.nodes h.1 path n1 n2 h1 h2
  · exact fun net h name c1 c2 h1 h2 =>
      nodupKeys_unique net.terminals h.2 name c1 c2 h1 h2

/-- Witness for C9 at a concrete input: the empty network is well-formed,
inserting a node into it preserves well-formedness, and the sample
network's unique terminal binding is recovered. -/
theorem network_key_uniqueness_invariant_witness :
    NetworkWF emptyNetwork
    ∧ NetworkWF (insertNode emptyNetwork "/mtl/x" sampleNode) :=
  ⟨network_key_uniqueness_invariant.1,
   network_key_uniqueness_invariant.2.1 emptyNetwork "/mtl/x" sampleNode
     network_key_uniqueness_invariant.1⟩

/-- C10: `AppendFilter` performs no validation of its argument — it accepts
and stores even the null pointer (`none`) like any other pass; `Exec`
invokes every stored filter unconditionally with no null check, so reaching
a null filter yields the undefined result (`none`); and under the
precondition that every appended filter is non-null, `Exec`'s result is
defined — the null-invocation branch is unreachable. -/
theorem appendFilter_unvalidated_null_unreachable_when_all_nonnull
    (c : MatfiltFilterChain) (nid : SdfPath) (net : MatfiltNetwork)
    (ctx : StdMap TfToken VtValue) (pri : NdrTokenVec)
    (sink : Option (List String)) :
    (c.AppendFilter none)._filters = c._filters ++ [none]
    ∧ (∀ (fs1 : List FilterFnc) (rest : List (Option FilterFnc)),
        c._filters = fs1.map some ++ none :: rest →
        c.Exec nid net ctx pri sink = none)
    ∧ ((∀ f ∈ c._filters, Option.isSome f) →
        (c.Exec nid net ctx pri sink).isSome) := by
  refine ⟨rfl, ?_, ?_⟩
  · intro fs1 rest hsplit
    simp only [MatfiltFilterChain.Exec, hsplit]
    exact ExecLoop_null fs1 rest nid _
  · intro hall
    simp only [MatfiltFilterChain.Exec]
    exact ExecLoop_isSome c._filters nid hall _

/-- Witness for C10 at concrete inputs: a chain holding one null pointer has
an undefined run, and a chain holding one non-null pass has a defined run. -/
theorem appendFilter_unvalidated_null_unreachable_witness :
    (MatfiltFilterChain.mk [none]).Exec "n" emptyNetwork [] [] none = none
    ∧ ((MatfiltFilterChain.mk [some idPass]).Exec "n" emptyNetwork [] []
        none).isSome :=
  ⟨(appendFilter_unvalidated_null_unreachable_when_all_nonnull
      (MatfiltFilterChain.mk [none]) "n" emptyNetwork [] [] none).2.1 [] []
      rfl,
   (appendFilter_unvalidated_null_unreachable_when_all_nonnull
      (MatfiltFilterChain.mk [some idPass]) "n" emptyNetwork [] []
      none).2.2 (by
        intro f hf
        rw [List.mem_singleton] at hf
        subst hf
        rfl)⟩

end Matfilt
